import Mathlib

/-!
Verification of the KORE AST Python-binding surface (`bindings/python/ast.cpp`)
against its natural-language specification.

The binding file itself contains the streaming reader `read_pattern_from_file`
and the glue for `Pattern.serialize` / `Pattern.deserialize`.  The tree model
and the binary codec live in the kllvm library (`kllvm/ast/AST.h`,
`kllvm/binary/serializer.h`, `kllvm/binary/deserializer.h`), which is not part
of this repository snapshot; those parts are modelled from the specification
(each such definition carries a doc comment starting with
"Modelled from the spec:").

Bytes are modelled as natural numbers; C++ strings (byte strings) are modelled
as lists of naturals.
-/

namespace KLLVM

/-- Modelled from the spec: the closed enumeration of sort categories
(`SortCategory` in the kllvm library; the binding at `ast.cpp` lists exactly
these twelve values). -/
inductive SortCategory where
  | uncomputed
  | map
  | rangeMap
  | list
  | set
  | int
  | float
  | stringBuffer
  | bool
  | symbol
  | variableCat
  | mint
deriving DecidableEq, Repr

/-- Modelled from the spec: a value type is a sort category paired with a
bit-width that is meaningful only for the fixed-width-integer category. -/
structure ValueType where
  category : SortCategory
  bits : Nat
deriving DecidableEq, Repr

/-- Modelled from the spec: sorts are either sort variables or composite
(parametric) sorts carrying a name, a value type class and an ordered list of
argument sorts (`KORESortVariable` / `KORECompositeSort` in the kllvm
library). -/
inductive KSort where
  | sortVar (name : List Nat)
  | sortComp (name : List Nat) (vt : ValueType) (args : List KSort)

/-- Modelled from the spec: a symbol has a name, declared (actual) argument
sorts, formal (generic) argument sorts, and an optional return sort
(`KORESymbol` in the kllvm library; the return sort is set by a separate
builder call, hence optional). -/
structure KORESymbol where
  name : List Nat
  arguments : List KSort
  formalArguments : List KSort
  returnSort : Option KSort

/-- Modelled from the spec: the pattern tree — composite applications,
variables and string literals (`KORECompositePattern`, `KOREVariablePattern`,
`KOREStringPattern` in the kllvm library). -/
inductive KOREPattern where
  | composite (ctor : KORESymbol) (args : List KOREPattern)
  | var (name : List Nat) (sort : KSort)
  | str (contents : List Nat)

/-- Errors surfaced by the binding layer, named after the specification's
error taxonomy.  In the C++ source these are the `py::type_error` and the
three `std::invalid_argument` throws of `read_pattern_from_file`, plus the
decode errors surfaced from the library deserializer. -/
inductive Err where
  | typeError
  | formatError
  | unsupportedVersion
  | missingSize
  | arityError
deriving DecidableEq, Repr

/-- Errors of the body-grammar decoder (the kllvm deserializer): structural
format errors and the arity mismatch of a decoded composite. -/
inductive DecodeErr where
  | formatErr
  | arityErr
deriving DecidableEq, Repr

/-- Embedding of decoder errors into the binding-level error taxonomy. -/
def DecodeErr.toErr : DecodeErr → Err
  | .formatErr => .formatError
  | .arityErr => .arityError

/-! ## Body grammar: encoder

Modelled from the spec (§4.1): a compact tagged encoding of the pattern tree —
a tag byte per node kind, length-prefixed names, a child count and the
recursive children.  The exact tag assignment is an implementation choice of
the format; it only has to be stable and to round-trip. -/

/-- Length-prefixed byte-string encoding. -/
def encodeStr (s : List Nat) : List Nat := s.length :: s

/-- Numeric tag of a sort category. -/
def SortCategory.tag : SortCategory → Nat
  | .uncomputed => 0
  | .map => 1
  | .rangeMap => 2
  | .list => 3
  | .set => 4
  | .int => 5
  | .float => 6
  | .stringBuffer => 7
  | .bool => 8
  | .symbol => 9
  | .variableCat => 10
  | .mint => 11

/-- Partial inverse of the sort-category tag. -/
def sortCategoryOfTag : Nat → Option SortCategory
  | 0 => some .uncomputed
  | 1 => some .map
  | 2 => some .rangeMap
  | 3 => some .list
  | 4 => some .set
  | 5 => some .int
  | 6 => some .float
  | 7 => some .stringBuffer
  | 8 => some .bool
  | 9 => some .symbol
  | 10 => some .variableCat
  | 11 => some .mint
  | _ => none

/-- Encoding of a value type: category tag then bit width. -/
def encodeVT (vt : ValueType) : List Nat := [vt.category.tag, vt.bits]

mutual

/-- Modelled from the spec: encoding of a sort (tag byte, then the fields). -/
def encodeSort : KSort → List Nat
  | .sortVar n => 4 :: encodeStr n
  | .sortComp n vt args => 5 :: (encodeStr n ++ encodeVT vt ++ args.length :: encodeSorts args)

/-- Concatenated encodings of a list of sorts. -/
def encodeSorts : List KSort → List Nat
  | [] => []
  | s :: ss => encodeSort s ++ encodeSorts ss

end

/-- Encoding of an optional sort (presence byte, then the sort). -/
def encodeOptSort : Option KSort → List Nat
  | none => [0]
  | some s => 1 :: encodeSort s

/-- Modelled from the spec: encoding of a symbol — name, count-prefixed
argument sorts, count-prefixed formal argument sorts, optional return sort. -/
def encodeSymbol (sym : KORESymbol) : List Nat :=
  encodeStr sym.name ++
    sym.arguments.length :: encodeSorts sym.arguments ++
    sym.formalArguments.length :: encodeSorts sym.formalArguments ++
    encodeOptSort sym.returnSort

mutual

/-- Modelled from the spec: encoding of a pattern body (§4.1): a tag byte per
node kind, the node's fields, a child count and the recursive children. -/
def encodePattern : KOREPattern → List Nat
  | .str c => 1 :: encodeStr c
  | .var n s => 2 :: (encodeStr n ++ encodeSort s)
  | .composite sym args => 3 :: (encodeSymbol sym ++ args.length :: encodePatterns args)

/-- Concatenated encodings of a list of patterns. -/
def encodePatterns : List KOREPattern → List Nat
  | [] => []
  | p :: ps => encodePattern p ++ encodePatterns ps

end

/-! ## Body grammar: decoder

Modelled from the spec (§4.2): the whole-buffer body decoder.  It consumes a
prefix of the byte list and returns the decoded node together with the
unconsumed tail, or a structural `formatErr`; a decoded composite whose child
count differs from its constructor's declared arity is an `arityErr`.  The
recursion is bounded by an explicit fuel parameter; every node consumes at
least one byte, so a fuel of one more than the input length is always
sufficient. -/

/-- Decoding of a length-prefixed byte string. -/
def decodeStr : List Nat → Except DecodeErr (List Nat × List Nat)
  | [] => .error .formatErr
  | n :: t => if n ≤ t.length then .ok (t.take n, t.drop n) else .error .formatErr

/-- Decoding of a value type. -/
def decodeVT : List Nat → Except DecodeErr (ValueType × List Nat)
  | c :: b :: t =>
    match sortCategoryOfTag c with
    | some cat => .ok (⟨cat, b⟩, t)
    | none => .error .formatErr
  | _ => .error .formatErr

mutual

/-- Fuel-bounded decoding of one sort. -/
def decodeSort : Nat → List Nat → Except DecodeErr (KSort × List Nat)
  | 0, _ => .error .formatErr
  | fuel + 1, l =>
    match l with
    | 4 :: t =>
      match decodeStr t with
      | .ok (n, r) => .ok (.sortVar n, r)
      | .error e => .error e
    | 5 :: t =>
      match decodeStr t with
      | .ok (n, r1) =>
        match decodeVT r1 with
        | .ok (vt, r2) =>
          match r2 with
          | k :: r3 =>
            match decodeSorts fuel k r3 with
            | .ok (args, r4) => .ok (.sortComp n vt args, r4)
            | .error e => .error e
          | [] => .error .formatErr
        | .error e => .error e
      | .error e => .error e
    | _ => .error .formatErr

/-- Fuel-bounded decoding of a counted list of sorts. -/
def decodeSorts : Nat → Nat → List Nat → Except DecodeErr (List KSort × List Nat)
  | _, 0, l => .ok ([], l)
  | fuel, k + 1, l =>
    match decodeSort fuel l with
    | .ok (s, r1) =>
      match decodeSorts fuel k r1 with
      | .ok (ss, r2) => .ok (s :: ss, r2)
      | .error e => .error e
    | .error e => .error e

end

/-- Fuel-bounded decoding of an optional sort. -/
def decodeOptSort : Nat → List Nat → Except DecodeErr (Option KSort × List Nat)
  | _, 0 :: t => .ok (none, t)
  | fuel + 1, 1 :: t =>
    match decodeSort fuel t with
    | .ok (s, r) => .ok (some s, r)
    | .error e => .error e
  | _, _ => .error .formatErr

/-- Fuel-bounded decoding of a symbol. -/
def decodeSymbol : Nat → List Nat → Except DecodeErr (KORESymbol × List Nat)
  | 0, _ => .error .formatErr
  | fuel + 1, l =>
    match decodeStr l with
    | .ok (n, r1) =>
      match r1 with
      | k1 :: r2 =>
        match decodeSorts fuel k1 r2 with
        | .ok (args, r3) =>
          match r3 with
          | k2 :: r4 =>
            match decodeSorts fuel k2 r4 with
            | .ok (formals, r5) =>
              match decodeOptSort fuel r5 with
              | .ok (ret, r6) => .ok (⟨n, args, formals, ret⟩, r6)
              | .error e => .error e
            | .error e => .error e
          | [] => .error .formatErr
        | .error e => .error e
      | [] => .error .formatErr
    | .error e => .error e

mutual

/-- Fuel-bounded decoding of one pattern.  A composite whose encoded child
count differs from the decoded constructor's declared arity fails with
`arityErr` (spec §3 invariant, §8 arity check). -/
def decodePattern : Nat → List Nat → Except DecodeErr (KOREPattern × List Nat)
  | 0, _ => .error .formatErr
  | fuel + 1, l =>
    match l with
    | 1 :: t =>
      match decodeStr t with
      | .ok (c, r) => .ok (.str c, r)
      | .error e => .error e
    | 2 :: t =>
      match decodeStr t with
      | .ok (n, r1) =>
        match decodeSort fuel r1 with
        | .ok (s, r2) => .ok (.var n s, r2)
        | .error e => .error e
      | .error e => .error e
    | 3 :: t =>
      match decodeSymbol fuel t with
      | .ok (sym, r1) =>
        match r1 with
        | k :: r2 =>
          if k = sym.arguments.length then
            match decodePatterns fuel k r2 with
            | .ok (args, r3) => .ok (.composite sym args, r3)
            | .error e => .error e
          else .error .arityErr
        | [] => .error .formatErr
      | .error e => .error e
    | _ => .error .formatErr

/-- Fuel-bounded decoding of a counted list of patterns. -/
def decodePatterns : Nat → Nat → List Nat → Except DecodeErr (List KOREPattern × List Nat)
  | _, 0, l => .ok ([], l)
  | fuel, k + 1, l =>
    match decodePattern fuel l with
    | .ok (p, r1) =>
      match decodePatterns fuel k r1 with
      | .ok (ps, r2) => .ok (p :: ps, r2)
      | .error e => .error e
    | .error e => .error e

end

/-- Decoding of one pattern body from a byte slice, with always-sufficient
fuel (`kllvm::detail::read` applied to the body slice). -/
def decodeTop (body : List Nat) : Except DecodeErr KOREPattern :=
  match decodePattern (body.length + 1) body with
  | .ok (p, _) => .ok p
  | .error e => .error e

/-! ## Framing

The bit-exact stream framing (spec §6): a fixed 5-byte magic header, a 6-byte
version record (three 16-bit little-endian components), an 8-byte
little-endian size field, then the body. -/

/-- Modelled from the spec: the fixed 5-byte magic header
(`serializer::magic_header` in the kllvm library). -/
def magicHeader : List Nat := [127, 75, 79, 82, 69]

/-- A binary-format version triple (`binary_version` in the kllvm library). -/
structure Version where
  major : Nat
  minor : Nat
  patch : Nat
deriving DecidableEq, Repr

/-- Lexicographic strict order on version triples (the C++ comparison used in
the check at ast.cpp line 95). -/
def vlt (a b : Version) : Bool :=
  a.major < b.major ||
    (a.major == b.major &&
      (a.minor < b.minor || (a.minor == b.minor && a.patch < b.patch)))

/-- The 6-byte encoding of a version triple: three 16-bit little-endian
components. -/
def versionBytes (v : Version) : List Nat :=
  [v.major % 256, v.major / 256 % 256,
   v.minor % 256, v.minor / 256 % 256,
   v.patch % 256, v.patch / 256 % 256]

/-- Modelled from the spec: `kllvm::detail::read_version`, decoding the
6-byte version record as three 16-bit little-endian components (missing bytes
read as zero, matching an unchecked read of a default-initialised value). -/
def readVersion (l : List Nat) : Version :=
  ⟨l.getD 0 0 + 256 * l.getD 1 0,
   l.getD 2 0 + 256 * l.getD 3 0,
   l.getD 4 0 + 256 * l.getD 5 0⟩

/-- The 8-byte little-endian encoding of the size field. -/
def sizeBytes (n : Nat) : List Nat :=
  [n % 256, n / 256 % 256, n / 256 ^ 2 % 256, n / 256 ^ 3 % 256,
   n / 256 ^ 4 % 256, n / 256 ^ 5 % 256, n / 256 ^ 6 % 256, n / 256 ^ 7 % 256]

/-- Modelled from the spec: `kllvm::detail::read_pattern_size_unchecked`,
decoding the 8-byte little-endian size field (missing bytes read as zero). -/
def readSize (l : List Nat) : Nat :=
  l.getD 0 0 + 256 * l.getD 1 0 + 256 ^ 2 * l.getD 2 0 + 256 ^ 3 * l.getD 3 0 +
    256 ^ 4 * l.getD 4 0 + 256 ^ 5 * l.getD 5 0 + 256 ^ 6 * l.getD 6 0 +
    256 ^ 7 * l.getD 7 0

/-- The version written by the serializer (1.2.0, the current format
version). -/
def currentVersion : Version := ⟨1, 2, 0⟩

/-! ## Whole-buffer API -/

/-- Modelled from the spec (and the binding lambda at ast.cpp lines 289-301):
`Pattern.serialize(emit_size)`.  The output is the magic header, the version
record, the 8-byte size field and the body.  The serializer always reserves
the size field and writes zero there; when `emit_size` is requested it
back-patches the field with the exact body length after the body is emitted
(`serializer::correct_emitted_size`). -/
def serialize (p : KOREPattern) (emitSize : Bool) : List Nat :=
  let body := encodePattern p
  magicHeader ++ versionBytes currentVersion ++
    sizeBytes (if emitSize then body.length else 0) ++ body

set_option linter.unusedVariables false in
/-- Modelled from the spec (§4.2, and the binding lambda at ast.cpp lines
302-310): `Pattern.deserialize(bytes, strip_raw_term)`.  Fails with a format
error when the magic header does not match, the buffer is truncated, or the
version is newer than the current format version; streams at version 1.2.0 or
newer carry an 8-byte size field before the body, which the whole-buffer path
skips (the body is the remainder of the buffer).  The `stripRawTerm` flag is
a decode-time policy for raw-term payloads of builtin sort categories; the
modelled body grammar contains no raw-term nodes, so the flag does not alter
the decoding of the modelled node kinds (spec §9 open question). -/
def deserialize (bytes : List Nat) (stripRawTerm : Bool) : Except Err KOREPattern :=
  if bytes.take 5 ≠ magicHeader then .error .formatError
  else if bytes.length < 11 then .error .formatError
  else
    let v := readVersion ((bytes.drop 5).take 6)
    if vlt currentVersion v then .error .unsupportedVersion
    else if vlt v currentVersion then
      match decodeTop (bytes.drop 11) with
      | .ok p => .ok p
      | .error e => .error e.toErr
    else if bytes.length < 19 then .error .formatError
    else
      match decodeTop (bytes.drop 19) with
      | .ok p => .ok p
      | .error e => .error e.toErr

/-! ## Streaming API

`read_pattern_from_file` (ast.cpp lines 73-113), translated statement by
statement.  The Python file-like object is modelled as a byte buffer with a
read cursor; its `read(n)` returns the next at-most-`n` bytes and advances
the cursor by the number of bytes actually returned, which is the behaviour
of a Python file object near end-of-file.  The `hasReadAttr` flag models
`py::hasattr(file_like, "read")`. -/

/-- A sequential byte source: a buffer plus a read cursor. -/
structure Source where
  data : List Nat
  pos : Nat
deriving DecidableEq, Repr

/-- One `read(n)` call on the source: the next at-most-`n` bytes, advancing
the cursor by the number of bytes returned. -/
def Source.read (s : Source) (n : Nat) : List Nat × Source :=
  let bytes := (s.data.drop s.pos).take n
  (bytes, ⟨s.data, s.pos + bytes.length⟩)

/-- Translation of `read_pattern_from_file` (ast.cpp lines 73-113).  Note
that the magic-header comparison is `std::equal(header.begin(), header.end(),
ref_header.begin())`: it compares only the bytes actually returned, so it
checks that the returned header is a prefix of the magic constant.  No read
length is ever validated. -/
def read_pattern_from_file (hasReadAttr : Bool) (s : Source) :
    Except Err KOREPattern × Source :=
  if !hasReadAttr then (.error .typeError, s)
  else
    let r5 := s.read 5
    if !(r5.1.isPrefixOf magicHeader) then (.error .formatError, r5.2)
    else
      let r6 := r5.2.read 6
      let v := readVersion r6.1
      if vlt v ⟨1, 2, 0⟩ then (.error .unsupportedVersion, r6.2)
      else
        let r8 := r6.2.read 8
        let size := readSize r8.1
        if size = 0 then (.error .missingSize, r8.2)
        else
          let rb := r8.2.read size
          match decodeTop rb.1 with
          | .ok p => (.ok p, rb.2)
          | .error e => (.error e.toErr, rb.2)

/-! ## Well-formedness

The data-model invariant (spec §3): every composite pattern's argument count
equals its constructor's declared arity (the length of the symbol's declared
argument-sort list). -/

mutual

/-- Arity well-formedness of a pattern, checked recursively. -/
def WFP : KOREPattern → Bool
  | .str _ => true
  | .var _ _ => true
  | .composite sym args => (args.length == sym.arguments.length) && WFPs args

/-- Arity well-formedness of every pattern in a list. -/
def WFPs : List KOREPattern → Bool
  | [] => true
  | p :: ps => WFP p && WFPs ps

end

/-! ## Helper lemmas: byte-string and field codecs -/

theorem decodeStr_encodeStr (s rest : List Nat) :
    decodeStr (encodeStr s ++ rest) = .ok (s, rest) := by
  simp [decodeStr, encodeStr, List.take_left' rfl, List.drop_left' rfl]

theorem sortCategoryOfTag_tag (c : SortCategory) :
    sortCategoryOfTag c.tag = some c := by
  cases c <;> rfl

theorem decodeVT_encodeVT (vt : ValueType) (rest : List Nat) :
    decodeVT (encodeVT vt ++ rest) = .ok (vt, rest) := by
  simp [decodeVT, encodeVT, sortCategoryOfTag_tag]

theorem encodeSort_length_pos (s : KSort) : 1 ≤ (encodeSort s).length := by
  cases s <;> simp [encodeSort]

theorem encodePattern_length_pos (p : KOREPattern) : 1 ≤ (encodePattern p).length := by
  cases p <;> simp [encodePattern]

theorem encodeSymbol_length_pos (sym : KORESymbol) : 1 ≤ (encodeSymbol sym).length := by
  simp [encodeSymbol, encodeStr]

theorem encodeOptSort_length_pos (r : Option KSort) : 1 ≤ (encodeOptSort r).length := by
  cases r <;> simp [encodeOptSort]

/-- Main decoding-inverts-encoding lemma, proved for all six decoders at once
by induction on the fuel.  Each decoder, run on the encoding of a value
followed by arbitrary trailing bytes, returns that value and leaves exactly
the trailing bytes, provided the fuel is at least the length of the encoding
(and, for patterns, the value satisfies the arity invariant that the decoder
checks). -/
theorem decode_encode_main : ∀ fuel : Nat,
    (∀ s rest, (encodeSort s).length ≤ fuel →
      decodeSort fuel (encodeSort s ++ rest) = .ok (s, rest)) ∧
    (∀ ss rest, (encodeSorts ss).length ≤ fuel →
      decodeSorts fuel ss.length (encodeSorts ss ++ rest) = .ok (ss, rest)) ∧
    (∀ r rest, (encodeOptSort r).length ≤ fuel →
      decodeOptSort fuel (encodeOptSort r ++ rest) = .ok (r, rest)) ∧
    (∀ sym rest, (encodeSymbol sym).length ≤ fuel →
      decodeSymbol fuel (encodeSymbol sym ++ rest) = .ok (sym, rest)) ∧
    (∀ p rest, WFP p = true → (encodePattern p).length ≤ fuel →
      decodePattern fuel (encodePattern p ++ rest) = .ok (p, rest)) ∧
    (∀ ps rest, WFPs ps = true → (encodePatterns ps).length ≤ fuel →
      decodePatterns fuel ps.length (encodePatterns ps ++ rest) = .ok (ps, rest)) := by
  intro fuel
  induction fuel with
  | zero =>
    refine ⟨?_, ?_, ?_, ?_, ?_, ?_⟩
    · intro s rest h; have := encodeSort_length_pos s; omega
    · intro ss rest h
      cases ss with
      | nil => simp [encodeSorts, decodeSorts]
      | cons s ss =>
        exfalso
        have := encodeSort_length_pos s
        simp only [encodeSorts, List.length_append] at h; omega
    · intro r rest h; have := encodeOptSort_length_pos r; omega
    · intro sym rest h; have := encodeSymbol_length_pos sym; omega
    · intro p rest hw h; have := encodePattern_length_pos p; omega
    · intro ps rest hw h
      cases ps with
      | nil => simp [encodePatterns, decodePatterns]
      | cons p ps =>
        exfalso
        have := encodePattern_length_pos p
        simp only [encodePatterns, List.length_append] at h; omega
  | succ fuel ih =>
    obtain ⟨ihS, ihSs, ihOpt, ihSym, ihP, ihPs⟩ := ih
    have hS : ∀ s rest, (encodeSort s).length ≤ fuel + 1 →
        decodeSort (fuel + 1) (encodeSort s ++ rest) = .ok (s, rest) := by
      intro s rest h
      cases s with
      | sortVar n =>
        simp [encodeSort, decodeSort, decodeStr_encodeStr]
      | sortComp n vt args =>
        have hargs : (encodeSorts args).length ≤ fuel := by
          simp [encodeSort, encodeStr, encodeVT] at h; omega
        simp only [encodeSort, List.cons_append, List.append_assoc]
        simp [decodeSort, decodeStr_encodeStr, decodeVT_encodeVT, ihSs args rest hargs]
    have hSs : ∀ ss, ∀ rest, (encodeSorts ss).length ≤ fuel + 1 →
        decodeSorts (fuel + 1) ss.length (encodeSorts ss ++ rest) = .ok (ss, rest) := by
      intro ss
      induction ss with
      | nil => intro rest h; simp [encodeSorts, decodeSorts]
      | cons s ss ihtail =>
        intro rest h
        simp only [encodeSorts, List.length_append] at h
        simp only [encodeSorts, List.length_cons, List.append_assoc]
        simp [decodeSorts, hS s _ (by omega), ihtail _ (by omega)]
    have hOpt : ∀ r rest, (encodeOptSort r).length ≤ fuel + 1 →
        decodeOptSort (fuel + 1) (encodeOptSort r ++ rest) = .ok (r, rest) := by
      intro r rest h
      cases r with
      | none => simp [encodeOptSort, decodeOptSort]
      | some s =>
        have hs : (encodeSort s).length ≤ fuel := by
          simp [encodeOptSort] at h; omega
        simp [encodeOptSort, decodeOptSort, ihS s rest hs]
    have hSym : ∀ sym rest, (encodeSymbol sym).length ≤ fuel + 1 →
        decodeSymbol (fuel + 1) (encodeSymbol sym ++ rest) = .ok (sym, rest) := by
      intro sym rest h
      obtain ⟨n, args, formals, ret⟩ := sym
      have hro := encodeOptSort_length_pos ret
      simp only [encodeSymbol, encodeStr, List.length_append, List.length_cons] at h hro
      have hargs : (encodeSorts args).length ≤ fuel := by omega
      have hformals : (encodeSorts formals).length ≤ fuel := by omega
      have hret : (encodeOptSort ret).length ≤ fuel := by omega
      simp only [encodeSymbol, List.cons_append, List.append_assoc]
      simp [decodeSymbol, decodeStr_encodeStr, ihSs args _ hargs,
        ihSs formals _ hformals, ihOpt ret _ hret]
    have hP : ∀ p rest, WFP p = true → (encodePattern p).length ≤ fuel + 1 →
        decodePattern (fuel + 1) (encodePattern p ++ rest) = .ok (p, rest) := by
      intro p rest hw h
      cases p with
      | str c =>
        simp [encodePattern, decodePattern, decodeStr_encodeStr]
      | var n s =>
        have hs : (encodeSort s).length ≤ fuel := by
          simp [encodePattern, encodeStr] at h; omega
        simp only [encodePattern, List.cons_append, List.append_assoc]
        simp [decodePattern, decodeStr_encodeStr, ihS s rest hs]
      | composite sym args =>
        simp only [WFP, Bool.and_eq_true, beq_iff_eq] at hw
        obtain ⟨harity, hwfs⟩ := hw
        simp only [encodePattern, List.length_cons, List.length_append] at h
        have hsym : (encodeSymbol sym).length ≤ fuel := by omega
        have hargs : (encodePatterns args).length ≤ fuel := by omega
        simp only [encodePattern, List.cons_append, List.append_assoc]
        have hps := ihPs args rest hwfs hargs
        rw [harity] at hps
        simp [decodePattern, ihSym sym _ hsym, harity, hps]
    have hPs : ∀ ps, ∀ rest, WFPs ps = true → (encodePatterns ps).length ≤ fuel + 1 →
        decodePatterns (fuel + 1) ps.length (encodePatterns ps ++ rest) = .ok (ps, rest) := by
      intro ps
      induction ps with
      | nil => intro rest hw h; simp [encodePatterns, decodePatterns]
      | cons p ps ihtail =>
        intro rest hw h
        simp only [WFPs, Bool.and_eq_true] at hw
        simp only [encodePatterns, List.length_append] at h
        simp only [encodePatterns, List.length_cons, List.append_assoc]
        simp [decodePatterns, hP p _ hw.1 (by omega), ihtail _ hw.2 (by omega)]
    exact ⟨hS, hSs, hOpt, hSym, hP, hPs⟩

/-- Decoding one body slice inverts the body encoder on well-formed
patterns. -/
theorem decodeTop_encodePattern (p : KOREPattern) (hw : WFP p = true) :
    decodeTop (encodePattern p) = .ok p := by
  have h := (decode_encode_main ((encodePattern p).length + 1)).2.2.2.2.1 p [] hw (by omega)
  simp only [List.append_nil] at h
  simp [decodeTop, h]

/-! ## Helper lemmas: framing -/

theorem magicHeader_length : magicHeader.length = 5 := rfl

theorem versionBytes_length (v : Version) : (versionBytes v).length = 6 := rfl

theorem sizeBytes_length (n : Nat) : (sizeBytes n).length = 8 := rfl

theorem readSize_sizeBytes (n : Nat) (h : n < 2 ^ 64) : readSize (sizeBytes n) = n := by
  simp only [readSize, sizeBytes, List.getD_cons_zero, List.getD_cons_succ]
  omega

theorem readVersion_currentVersion :
    readVersion (versionBytes currentVersion) = currentVersion := by decide

theorem vlt_irrefl (v : Version) : vlt v v = false := by
  simp [vlt]

theorem serialize_assoc (p : KOREPattern) (e : Bool) :
    serialize p e = magicHeader ++ (versionBytes currentVersion ++
      (sizeBytes (if e then (encodePattern p).length else 0) ++ encodePattern p)) := by
  simp [serialize, List.append_assoc]

theorem serialize_length (p : KOREPattern) (e : Bool) :
    (serialize p e).length = 19 + (encodePattern p).length := by
  rw [serialize_assoc]
  simp only [List.length_append, magicHeader_length, versionBytes_length, sizeBytes_length]
  omega

/-- Whole-buffer deserialization inverts serialization with the size emitted,
under either raw-term policy, for arity-well-formed patterns. -/
theorem deserialize_serialize (p : KOREPattern) (strip : Bool) (hw : WFP p = true) :
    deserialize (serialize p true) strip = .ok p := by
  have hbody := decodeTop_encodePattern p hw
  have e1 : serialize p true = magicHeader ++ (versionBytes currentVersion ++
      (sizeBytes (encodePattern p).length ++ encodePattern p)) := by
    simpa using serialize_assoc p true
  have ht5 : (magicHeader ++ (versionBytes currentVersion ++
      (sizeBytes (encodePattern p).length ++ encodePattern p))).take 5 = magicHeader :=
    List.take_left' rfl
  have hd5 : (magicHeader ++ (versionBytes currentVersion ++
      (sizeBytes (encodePattern p).length ++ encodePattern p))).drop 5 =
      versionBytes currentVersion ++ (sizeBytes (encodePattern p).length ++ encodePattern p) :=
    List.drop_left' rfl
  have ht6 : (versionBytes currentVersion ++
      (sizeBytes (encodePattern p).length ++ encodePattern p)).take 6 =
      versionBytes currentVersion :=
    List.take_left' rfl
  have hlen : (magicHeader ++ (versionBytes currentVersion ++
      (sizeBytes (encodePattern p).length ++ encodePattern p))).length =
      19 + (encodePattern p).length := by
    simp only [List.length_append, magicHeader_length, versionBytes_length, sizeBytes_length]
    omega
  have hd19 : (magicHeader ++ (versionBytes currentVersion ++
      (sizeBytes (encodePattern p).length ++ encodePattern p))).drop 19 = encodePattern p := by
    rw [show magicHeader ++ (versionBytes currentVersion ++
        (sizeBytes (encodePattern p).length ++ encodePattern p)) =
        (magicHeader ++ versionBytes currentVersion ++ sizeBytes (encodePattern p).length) ++
          encodePattern p by simp [List.append_assoc]]
    exact List.drop_left' (by
      simp only [List.length_append, magicHeader_length, versionBytes_length, sizeBytes_length])
  rw [e1]
  simp only [deserialize, ht5, hd5, ht6, hlen, hd19, readVersion_currentVersion,
    vlt_irrefl, ne_eq, not_true_eq_false, if_false, Bool.false_eq_true, if_neg,
    hbody]
  norm_num
  intro h
  exact absurd h (by omega)

/-! ## Helper lemmas: the byte source -/

theorem Source.read_chunk {data chunk tail : List Nat} {pos n : Nat}
    (hd : data.drop pos = chunk ++ tail) (hn : chunk.length = n) :
    Source.read ⟨data, pos⟩ n = (chunk, ⟨data, pos + n⟩) := by
  simp [Source.read, hd, List.take_left' hn, hn]

theorem Source.drop_after {data chunk tail : List Nat} {pos n : Nat}
    (hd : data.drop pos = chunk ++ tail) (hn : chunk.length = n) :
    data.drop (pos + n) = tail := by
  rw [← List.drop_drop, hd, List.drop_left' hn]

/-- A boolean prefix test between lists of equal length is an equality
test. -/
theorem isPrefixOf_length_eq :
    ∀ (a b : List Nat), a.length = b.length → (a.isPrefixOf b = true ↔ a = b) := by
  intro a
  induction a with
  | nil => intro b h; cases b <;> simp_all [List.isPrefixOf]
  | cons x xs ihx =>
    intro b h
    cases b with
    | nil => simp at h
    | cons y ys =>
      simp only [List.length_cons, Nat.add_right_cancel_iff] at h
      simp [List.isPrefixOf, ihx ys h]

/-- The streaming reader, run at an arbitrary cursor position in a buffer
whose bytes from that position on start with a size-emitting serialization of
an arity-well-formed pattern, returns that pattern and leaves the cursor
exactly at the end of the pattern's framed bytes. -/
theorem readFrom_serialize (p : KOREPattern) (pre rest : List Nat) (hw : WFP p = true)
    (hsz : (encodePattern p).length < 2 ^ 64) :
    read_pattern_from_file true ⟨pre ++ serialize p true ++ rest, pre.length⟩ =
      (.ok p, ⟨pre ++ serialize p true ++ rest,
        pre.length + (serialize p true).length⟩) := by
  have hbody := decodeTop_encodePattern p hw
  have hpos := encodePattern_length_pos p
  have hd0 : (pre ++ serialize p true ++ rest).drop pre.length =
      magicHeader ++ (versionBytes currentVersion ++
        (sizeBytes (encodePattern p).length ++ (encodePattern p ++ rest))) := by
    rw [show pre ++ serialize p true ++ rest =
        pre ++ (magicHeader ++ (versionBytes currentVersion ++
          (sizeBytes (encodePattern p).length ++ (encodePattern p ++ rest)))) by
      rw [serialize_assoc]; simp [List.append_assoc]]
    exact List.drop_left pre _
  have h5 := Source.read_chunk (n := 5) hd0 rfl
  have hd1 := Source.drop_after (n := 5) hd0 rfl
  have h6 := Source.read_chunk (n := 6) hd1 rfl
  have hd2 := Source.drop_after (n := 6) hd1 rfl
  have h8 := Source.read_chunk (n := 8) hd2 rfl
  have hd3 := Source.drop_after (n := 8) hd2 rfl
  have hb := Source.read_chunk (n := (encodePattern p).length) hd3 rfl
  have hpf : magicHeader.isPrefixOf magicHeader = true := by decide
  have hv : vlt (readVersion (versionBytes currentVersion)) ⟨1, 2, 0⟩ = false := by decide
  simp only [read_pattern_from_file, h5, h6, h8, hb, hpf, hv,
    readSize_sizeBytes _ hsz, hbody, Bool.not_true, Bool.false_eq_true, if_false,
    if_neg (by omega : ¬(encodePattern p).length = 0)]
  simp only [Prod.mk.injEq, Source.mk.injEq, serialize_length, true_and]
  omega

/-! ## Helper lemmas: decoded patterns satisfy the arity invariant -/

/-- Every pattern produced by the body decoder satisfies the arity invariant,
and a counted pattern-list decode returns exactly as many patterns as its
count.  Proved by induction on the fuel, with an inner induction on the
count. -/
theorem decode_wf_main : ∀ fuel : Nat,
    (∀ l p r, decodePattern fuel l = .ok (p, r) → WFP p = true) ∧
    (∀ k l ps r, decodePatterns fuel k l = .ok (ps, r) →
      WFPs ps = true ∧ ps.length = k) := by
  intro fuel
  induction fuel with
  | zero =>
    constructor
    · intro l p r h; simp [decodePattern] at h
    · intro k l ps r h
      cases k with
      | zero =>
        simp only [decodePatterns, Except.ok.injEq, Prod.mk.injEq] at h
        obtain ⟨h1, h2⟩ := h
        subst h1; exact ⟨rfl, rfl⟩
      | succ k => simp [decodePatterns, decodePattern] at h
  | succ fuel ih =>
    obtain ⟨ihP, ihPs⟩ := ih
    have hP : ∀ l p r, decodePattern (fuel + 1) l = .ok (p, r) → WFP p = true := by
      intro l
      cases l with
      | nil => intro p r h; simp [decodePattern] at h
      | cons b t =>
        match b with
        | 0 => intro p r h; simp [decodePattern] at h
        | 1 =>
          intro p r h
          simp only [decodePattern] at h
          cases hs : decodeStr t with
          | ok v =>
            obtain ⟨c, r1⟩ := v
            simp only [hs, Except.ok.injEq, Prod.mk.injEq] at h
            obtain ⟨h1, h2⟩ := h
            subst h1; rfl
          | error e => simp [hs] at h
        | 2 =>
          intro p r h
          simp only [decodePattern] at h
          cases hs : decodeStr t with
          | ok v =>
            obtain ⟨n, r1⟩ := v
            simp only [hs] at h
            cases hso : decodeSort fuel r1 with
            | ok w =>
              obtain ⟨srt, r2⟩ := w
              simp only [hso, Except.ok.injEq, Prod.mk.injEq] at h
              obtain ⟨h1, h2⟩ := h
              subst h1; rfl
            | error e => simp [hso] at h
          | error e => simp [hs] at h
        | 3 =>
          intro p r h
          simp only [decodePattern] at h
          cases hsym : decodeSymbol fuel t with
          | ok v =>
            obtain ⟨sym, r1⟩ := v
            simp only [hsym] at h
            cases r1 with
            | nil => simp at h
            | cons k r2 =>
              simp only at h
              by_cases hk : k = sym.arguments.length
              · rw [if_pos hk] at h
                cases hargs : decodePatterns fuel k r2 with
                | ok w =>
                  obtain ⟨args, r3⟩ := w
                  simp only [hargs, Except.ok.injEq, Prod.mk.injEq] at h
                  obtain ⟨h1, h2⟩ := h
                  subst h1
                  obtain ⟨hwfs, hlen⟩ := ihPs _ _ _ _ hargs
                  simp [WFP, hwfs, hlen, hk]
                | error e => simp [hargs] at h
              · rw [if_neg hk] at h; simp at h
          | error e => simp [hsym] at h
        | (n + 4) =>
          intro p r h
          simp [decodePattern] at h
    have hPs : ∀ k l ps r, decodePatterns (fuel + 1) k l = .ok (ps, r) →
        WFPs ps = true ∧ ps.length = k := by
      intro k
      induction k with
      | zero =>
        intro l ps r h
        simp only [decodePatterns, Except.ok.injEq, Prod.mk.injEq] at h
        obtain ⟨h1, h2⟩ := h
        subst h1; exact ⟨rfl, rfl⟩
      | succ k ihk =>
        intro l ps r h
        simp only [decodePatterns] at h
        cases hp : decodePattern (fuel + 1) l with
        | ok v =>
          obtain ⟨p1, r1⟩ := v
          simp only [hp] at h
          cases ht : decodePatterns (fuel + 1) k r1 with
          | ok w =>
            obtain ⟨ps1, r2⟩ := w
            simp only [ht, Except.ok.injEq, Prod.mk.injEq] at h
            obtain ⟨h1, h2⟩ := h
            subst h1
            obtain ⟨hwfs, hlen⟩ := ihk _ _ _ ht
            exact ⟨by simp [WFPs, hP _ _ _ hp, hwfs], by simp [hlen]⟩
          | error e => simp [ht] at h
        | error e => simp [hp] at h
    exact ⟨hP, hPs⟩

/-! ## Builder phase

Modelled from the spec (§3 invariants, §4.4, §8 arity check): a composite
pattern under construction (`KORECompositePattern` before publication);
`add_argument` appends to the ordered argument sequence and enforces the
arity invariant against the constructor symbol's declared argument sorts,
failing with the `ArityError` of the spec's taxonomy on a mismatch. -/

/-- A composite pattern in its builder phase: the constructor symbol and the
arguments appended so far. -/
structure CompositeBuilder where
  ctor : KORESymbol
  args : List KOREPattern

/-- Modelled from the spec: `CompositePattern.add_argument` appends one
argument, failing with an arity error when the argument count would exceed
the constructor's declared arity. -/
def addArgument (b : CompositeBuilder) (p : KOREPattern) : Except Err CompositeBuilder :=
  if b.args.length < b.ctor.arguments.length then .ok ⟨b.ctor, b.args ++ [p]⟩
  else .error .arityError

/-- Appending a whole argument list through repeated `addArgument` calls. -/
def addAll (b : CompositeBuilder) : List KOREPattern → Except Err CompositeBuilder
  | [] => .ok b
  | p :: ps =>
    match addArgument b p with
    | .ok b2 => addAll b2 ps
    | .error e => .error e

/-- Modelled from the spec: constructing a composite pattern from a symbol
and an argument sequence — `add_argument` for each argument, then the final
arity check when the builder phase ends. -/
def buildComposite (sym : KORESymbol) (args : List KOREPattern) : Except Err KOREPattern :=
  match addAll ⟨sym, []⟩ args with
  | .ok b =>
    if b.args.length = b.ctor.arguments.length then .ok (.composite b.ctor b.args)
    else .error .arityError
  | .error e => .error e

theorem addAll_spec : ∀ (args : List KOREPattern) (sym : KORESymbol)
    (acc : List KOREPattern), acc.length ≤ sym.arguments.length →
    addAll ⟨sym, acc⟩ args =
      if acc.length + args.length ≤ sym.arguments.length then .ok ⟨sym, acc ++ args⟩
      else .error .arityError := by
  intro args
  induction args with
  | nil =>
    intro sym acc hacc
    simp only [addAll, List.length_nil, Nat.add_zero, List.append_nil]
    rw [if_pos hacc]
  | cons p ps ihp =>
    intro sym acc hacc
    simp only [addAll, addArgument]
    by_cases hlt : acc.length < sym.arguments.length
    · rw [if_pos hlt]
      have hstep := ihp sym (acc ++ [p])
        (by simp only [List.length_append, List.length_singleton]; omega)
      simp only [hstep, List.length_append, List.length_cons, List.length_singleton,
        List.length_nil, List.append_assoc, List.singleton_append]
      split_ifs <;> first | rfl | omega
    · have hc : ¬(acc.length + (p :: ps).length ≤ sym.arguments.length) := by
        simp only [List.length_cons]; omega
      rw [if_neg hlt, if_neg hc]

theorem buildComposite_spec (sym : KORESymbol) (args : List KOREPattern) :
    buildComposite sym args =
      if args.length = sym.arguments.length then .ok (.composite sym args)
      else .error .arityError := by
  simp only [buildComposite, addAll_spec args sym [] (by simp), List.length_nil,
    List.nil_append, Nat.zero_add]
  by_cases hle : args.length ≤ sym.arguments.length
  · rw [if_pos hle]
  · rw [if_neg hle, if_neg (by omega)]

/-! ## Substitution

Modelled from the spec (§3, §8): `Pattern.substitute(map)` returns a new tree
in which variable patterns bound in the map are replaced by their images and
all other structure is preserved; the receiver is not mutated (in this
embedding patterns are immutable values, so the operation is a pure function
from the input tree to the result tree).  The substitution map
(`std::map<std::string, std::shared_ptr<KOREPattern>>` in the binding
signature) is modelled as an association list queried by name. -/

/-- Name lookup in the substitution map. -/
def lookupSubst : List (List Nat × KOREPattern) → List Nat → Option KOREPattern
  | [], _ => none
  | (k, v) :: t, n => if k = n then some v else lookupSubst t n

mutual

/-- Modelled from the spec: `Pattern.substitute`, the structurally recursive
substitution returning a new tree. -/
def substitute : KOREPattern → List (List Nat × KOREPattern) → KOREPattern
  | .var n s, m =>
    match lookupSubst m n with
    | some q => q
    | none => .var n s
  | .str c, _ => .str c
  | .composite sym args, m => .composite sym (substituteList args m)

/-- Substitution applied to each element of an argument list. -/
def substituteList : List KOREPattern → List (List Nat × KOREPattern) → List KOREPattern
  | [], _ => []
  | p :: ps, m => substitute p m :: substituteList ps m

end

mutual

/-- The specification's description of what the result of `substitute` must
look like, as a relation between the input tree and the result tree: a
variable bound in the map becomes its image, an unbound variable is
preserved, a string literal is preserved, and a composite keeps its
constructor while the relation holds pointwise on the arguments. -/
inductive SubstRel (m : List (List Nat × KOREPattern)) : KOREPattern → KOREPattern → Prop where
  | varHit (n : List Nat) (s : KSort) (q : KOREPattern) :
      lookupSubst m n = some q → SubstRel m (.var n s) q
  | varMiss (n : List Nat) (s : KSort) :
      lookupSubst m n = none → SubstRel m (.var n s) (.var n s)
  | strEq (c : List Nat) : SubstRel m (.str c) (.str c)
  | compEq (sym : KORESymbol) (args args2 : List KOREPattern) :
      SubstRelList m args args2 → SubstRel m (.composite sym args) (.composite sym args2)

/-- Pointwise lifting of `SubstRel` to argument lists. -/
inductive SubstRelList (m : List (List Nat × KOREPattern)) :
    List KOREPattern → List KOREPattern → Prop where
  | nil : SubstRelList m [] []
  | cons (p p2 : KOREPattern) (ps ps2 : List KOREPattern) :
      SubstRel m p p2 → SubstRelList m ps ps2 → SubstRelList m (p :: ps) (p2 :: ps2)

end

/-- Substitution satisfies its specification relation, and the empty
substitution is the identity.  Proved by strong induction on the encoding
length of the pattern, which bounds the tree structurally. -/
theorem substitute_main : ∀ fuel : Nat,
    (∀ p, (encodePattern p).length ≤ fuel →
      ∀ m, SubstRel m p (substitute p m) ∧ substitute p [] = p) ∧
    (∀ ps, (encodePatterns ps).length ≤ fuel →
      ∀ m, SubstRelList m ps (substituteList ps m) ∧ substituteList ps [] = ps) := by
  intro fuel
  induction fuel with
  | zero =>
    constructor
    · intro p h; have := encodePattern_length_pos p; omega
    · intro ps h
      cases ps with
      | nil => intro m; exact ⟨SubstRelList.nil, rfl⟩
      | cons p ps =>
        exfalso
        have := encodePattern_length_pos p
        simp only [encodePatterns, List.length_append] at h; omega
  | succ fuel ih =>
    obtain ⟨ihP, ihPs⟩ := ih
    have hP : ∀ p, (encodePattern p).length ≤ fuel + 1 →
        ∀ m, SubstRel m p (substitute p m) ∧ substitute p [] = p := by
      intro p h m
      cases p with
      | str c => exact ⟨SubstRel.strEq c, rfl⟩
      | var n s =>
        constructor
        · cases hq : lookupSubst m n with
          | some q =>
            have hs : substitute (.var n s) m = q := by simp [substitute, hq]
            rw [hs]; exact SubstRel.varHit n s q hq
          | none =>
            have hs : substitute (.var n s) m = .var n s := by simp [substitute, hq]
            rw [hs]; exact SubstRel.varMiss n s hq
        · simp [substitute, lookupSubst]
      | composite sym args =>
        have hargs : (encodePatterns args).length ≤ fuel := by
          simp only [encodePattern, List.length_cons, List.length_append] at h; omega
        refine ⟨?_, ?_⟩
        · simp only [substitute]
          exact SubstRel.compEq sym args _ ((ihPs args hargs m).1)
        · simp only [substitute]
          rw [(ihPs args hargs []).2]
    have hPs : ∀ ps, (encodePatterns ps).length ≤ fuel + 1 →
        ∀ m, SubstRelList m ps (substituteList ps m) ∧ substituteList ps [] = ps := by
      intro ps h m
      cases ps with
      | nil => exact ⟨SubstRelList.nil, rfl⟩
      | cons p ps =>
        simp only [encodePatterns, List.length_append] at h
        have hplen : (encodePattern p).length ≤ fuel + 1 := by omega
        have hpslen : (encodePatterns ps).length ≤ fuel := by
          have := encodePattern_length_pos p; omega
        refine ⟨?_, ?_⟩
        · simp only [substituteList]
          exact SubstRelList.cons _ _ _ _ ((hP p hplen m).1) ((ihPs ps hpslen m).1)
        · simp only [substituteList]
          rw [(hP p hplen []).2, (ihPs ps hpslen []).2]
    exact ⟨hP, hPs⟩

/-! ## Desugaring of associative applications

Modelled from the spec (§3 invariants): `CompositePattern.desugar_associative`
expands a left- or right-associative list-like application into nested binary
applications.  The kllvm implementation is not part of this snapshot; the
expansion is modelled as folding the inner application's arguments into
nested binary applications of the inner constructor, and any other pattern is
returned unchanged.  Like `substitute`, it is a pure function from the input
tree to a new result tree. -/

/-- Byte string of an ASCII name. -/
def strBytes (s : String) : List Nat := s.toList.map Char.toNat

/-- Left fold of an argument list into nested binary applications. -/
def foldAssocLeft (sym : KORESymbol) (acc : KOREPattern) : List KOREPattern → KOREPattern
  | [] => acc
  | x :: xs => foldAssocLeft sym (.composite sym [acc, x]) xs

/-- Right fold of an argument list into nested binary applications. -/
def foldAssocRight (sym : KORESymbol) (x : KOREPattern) : List KOREPattern → KOREPattern
  | [] => x
  | y :: ys => .composite sym [x, foldAssocRight sym y ys]

/-- Modelled from the spec: `desugar_associative`.  An application tagged as
left-associative (resp. right-associative) whose single argument is an inner
application is expanded by folding the inner application's arguments into
nested binary applications of the inner constructor; any other pattern is
returned unchanged. -/
def desugarAssociative (p : KOREPattern) : KOREPattern :=
  match p with
  | .composite outer [.composite inner (x :: xs)] =>
    if outer.name = strBytes "\\left-assoc" then foldAssocLeft inner x xs
    else if outer.name = strBytes "\\right-assoc" then foldAssocRight inner x xs
    else p
  | _ => p

/-- Decoder errors surface as format or arity errors, never as the version
error of the framing layer. -/
theorem toErr_ne_unsupported (e : DecodeErr) : e.toErr ≠ Err.unsupportedVersion := by
  cases e <;> simp [DecodeErr.toErr]

/-! ## Claim theorems -/

/-- C10: for every argument object that does not expose a read attribute,
`Pattern.read_from` fails with a `TypeError` before consuming any bytes from
the source (the returned source is the input source, cursor untouched),
rather than with one of the format/version/size errors. -/
theorem non_file_like_type_error (s : Source) :
    read_pattern_from_file false s = (.error .typeError, s) := by
  simp [read_pattern_from_file]

/-- C4: for every source whose first 5 bytes differ from the magic constant,
`read_from` fails with a `FormatError`, and consumes exactly 5 bytes from the
source (the returned cursor is 5, so no more than 5 bytes were consumed). -/
theorem bad_magic_format_error (data : List Nat) (h5 : 5 ≤ data.length)
    (hm : data.take 5 ≠ magicHeader) :
    read_pattern_from_file true ⟨data, 0⟩ = (.error .formatError, ⟨data, 5⟩) := by
  have hlen5 : (data.take 5).length = 5 := by
    simp only [List.length_take]; omega
  have hd : data.drop 0 = data.take 5 ++ data.drop 5 := by
    rw [List.drop_zero, List.take_append_drop]
  have hr := Source.read_chunk hd hlen5
  have hpf : (data.take 5).isPrefixOf magicHeader = false := by
    cases hx : (data.take 5).isPrefixOf magicHeader with
    | false => rfl
    | true => exact absurd ((isPrefixOf_length_eq _ _ (by rw [hlen5]; rfl)).mp hx) hm
  simp [read_pattern_from_file, hr, hpf]

/-- C5: a stream whose 6-byte version record decodes below 1.2.0 fails
`read_from` with the unsupported-version error (cursor left at 11, directly
after the version record), even if the stream is otherwise well-formed
(arbitrary continuation bytes); a version at or above 1.2.0 passes this gate —
the result is never the unsupported-version error. -/
theorem version_gate (vb rest : List Nat) (h6 : vb.length = 6) :
    (vlt (readVersion vb) ⟨1, 2, 0⟩ = true →
      read_pattern_from_file true ⟨magicHeader ++ vb ++ rest, 0⟩ =
        (.error .unsupportedVersion, ⟨magicHeader ++ vb ++ rest, 11⟩)) ∧
    (vlt (readVersion vb) ⟨1, 2, 0⟩ = false →
      (read_pattern_from_file true ⟨magicHeader ++ vb ++ rest, 0⟩).1 ≠
        .error .unsupportedVersion) := by
  simp only [List.append_assoc]
  have hd0 : (magicHeader ++ (vb ++ rest)).drop 0 = magicHeader ++ (vb ++ rest) :=
    List.drop_zero _
  have h5 := Source.read_chunk (n := 5) hd0 rfl
  have hd1 := Source.drop_after (n := 5) hd0 rfl
  have h6r := Source.read_chunk (n := 6) hd1 h6
  have hpf : magicHeader.isPrefixOf magicHeader = true := by decide
  constructor
  · intro hv
    simp [read_pattern_from_file, h5, h6r, hpf, hv]
  · intro hv
    simp only [read_pattern_from_file, h5, h6r, hpf, hv, Bool.not_true,
      Bool.false_eq_true, if_false]
    split
    · simp
    · split
      · simp
      · simp only [ne_eq, Prod.fst]
        intro hcontra
        rename_i e heq
        exact toErr_ne_unsupported e (by injection hcontra)

/-- C6: a stream with a supported version (at or above 1.2.0) whose 8-byte
size field decodes to zero fails `read_from` with the missing-size error,
with the cursor left at 19 — directly after the size field — so no body byte
is consumed or decoded. -/
theorem zero_size_missing_size_error (vb s8 rest : List Nat) (h6 : vb.length = 6)
    (h8 : s8.length = 8) (hge : vlt (readVersion vb) ⟨1, 2, 0⟩ = false)
    (hz : readSize s8 = 0) :
    read_pattern_from_file true ⟨magicHeader ++ vb ++ s8 ++ rest, 0⟩ =
      (.error .missingSize, ⟨magicHeader ++ vb ++ s8 ++ rest, 19⟩) := by
  simp only [List.append_assoc]
  have hd0 : (magicHeader ++ (vb ++ (s8 ++ rest))).drop 0 =
      magicHeader ++ (vb ++ (s8 ++ rest)) := List.drop_zero _
  have h5 := Source.read_chunk (n := 5) hd0 rfl
  have hd1 := Source.drop_after (n := 5) hd0 rfl
  have h6r := Source.read_chunk (n := 6) hd1 h6
  have hd2 := Source.drop_after (n := 6) hd1 h6
  have h8r := Source.read_chunk (n := 8) hd2 h8
  have hpf : magicHeader.isPrefixOf magicHeader = true := by decide
  simp [read_pattern_from_file, h5, h6r, h8r, hpf, hge, hz]

/-- C1: for every pattern constructible from the data model (that is,
satisfying the arity invariant that construction enforces), deserializing the
bytes produced by `serialize(p, emit_size := true)` yields a pattern
structurally equal to `p`, under both `strip_raw_term := true` and
`strip_raw_term := false`. -/
theorem serialize_deserialize_roundtrip (p : KOREPattern) (strip : Bool)
    (hw : WFP p = true) :
    deserialize (serialize p true) strip = .ok p :=
  deserialize_serialize p strip hw

/-- Witness for C1 at a concrete pattern, under both raw-term policies. -/
theorem serialize_deserialize_roundtrip_witness :
    WFP (.str [7]) = true ∧
    deserialize (serialize (.str [7]) true) true = .ok (.str [7]) ∧
    deserialize (serialize (.str [7]) true) false = .ok (.str [7]) :=
  ⟨rfl, serialize_deserialize_roundtrip (.str [7]) true rfl,
    serialize_deserialize_roundtrip (.str [7]) false rfl⟩

/-- C2: for a buffer holding the size-emitting serialization of a pattern
`p`, wrapped in a byte source, `read_from` yields the same tree as
`deserialize` on that buffer, and on success leaves the source's read cursor
exactly at the end of the pattern's framed bytes — verified by framing a
second independently serialized pattern `q` directly after `p` and reading it
immediately afterwards from the same source. -/
theorem streaming_read_matches_deserialize (p q : KOREPattern) (strip : Bool)
    (hwp : WFP p = true) (hwq : WFP q = true)
    (hp : (encodePattern p).length < 2 ^ 64) (hq : (encodePattern q).length < 2 ^ 64) :
    deserialize (serialize p true) strip = .ok p ∧
    read_pattern_from_file true ⟨serialize p true ++ serialize q true, 0⟩ =
      (.ok p, ⟨serialize p true ++ serialize q true, (serialize p true).length⟩) ∧
    read_pattern_from_file true
        ⟨serialize p true ++ serialize q true, (serialize p true).length⟩ =
      (.ok q, ⟨serialize p true ++ serialize q true,
        (serialize p true).length + (serialize q true).length⟩) := by
  refine ⟨deserialize_serialize p strip hwp, ?_, ?_⟩
  · have h := readFrom_serialize p [] (serialize q true) hwp hp
    simpa using h
  · have h := readFrom_serialize q (serialize p true) [] hwq hq
    simpa using h

/-- Witness for C2 at two concrete patterns. -/
theorem streaming_read_matches_deserialize_witness :
    deserialize (serialize (.str [7]) true) true = .ok (.str [7]) ∧
    read_pattern_from_file true
        ⟨serialize (.str [7]) true ++ serialize (.str [9, 9]) true, 0⟩ =
      (.ok (.str [7]), ⟨serialize (.str [7]) true ++ serialize (.str [9, 9]) true,
        (serialize (.str [7]) true).length⟩) ∧
    read_pattern_from_file true
        ⟨serialize (.str [7]) true ++ serialize (.str [9, 9]) true,
          (serialize (.str [7]) true).length⟩ =
      (.ok (.str [9, 9]), ⟨serialize (.str [7]) true ++ serialize (.str [9, 9]) true,
        (serialize (.str [7]) true).length + (serialize (.str [9, 9]) true).length⟩) :=
  streaming_read_matches_deserialize (.str [7]) (.str [9, 9]) true rfl rfl
    (by decide) (by decide)

/-- The body of a serialized pattern is the buffer after the 19 framing
bytes. -/
theorem serialize_drop19 (p : KOREPattern) (e : Bool) :
    (serialize p e).drop 19 = encodePattern p := by
  rw [serialize_assoc]
  rw [show magicHeader ++ (versionBytes currentVersion ++
      (sizeBytes (if e then (encodePattern p).length else 0) ++ encodePattern p)) =
      (magicHeader ++ versionBytes currentVersion ++
        sizeBytes (if e then (encodePattern p).length else 0)) ++ encodePattern p by
    simp [List.append_assoc]]
  exact List.drop_left' (by
    simp only [List.length_append, magicHeader_length, versionBytes_length, sizeBytes_length])

/-- C7: `serialize` is a deterministic function of tree structure — for
arity-well-formed patterns and a fixed `emit_size` flag, the outputs are
byte-identical exactly when the trees are structurally equal (structural
equality of the embedded values), however the trees were constructed. -/
theorem serialize_deterministic (p1 p2 : KOREPattern) (e : Bool)
    (h1 : WFP p1 = true) (h2 : WFP p2 = true) :
    serialize p1 e = serialize p2 e ↔ p1 = p2 := by
  constructor
  · intro h
    have hb : encodePattern p1 = encodePattern p2 := by
      rw [← serialize_drop19 p1 e, ← serialize_drop19 p2 e, h]
    have d1 := decodeTop_encodePattern p1 h1
    have d2 := decodeTop_encodePattern p2 h2
    rw [hb, d2] at d1
    injection d1 with d1
    exact d1.symm
  · intro h; rw [h]

/-- Witness for C7 at concrete structurally equal and distinct patterns. -/
theorem serialize_deterministic_witness :
    (serialize (.str [7]) true = serialize (.str [7]) true ↔
      KOREPattern.str [7] = .str [7]) ∧
    (serialize (.str [7]) false = serialize (.str [8]) false ↔
      KOREPattern.str [7] = .str [8]) :=
  ⟨serialize_deterministic (.str [7]) (.str [7]) true rfl rfl,
    serialize_deterministic (.str [7]) (.str [8]) false rfl rfl⟩

/-- C8: `substitute` is a pure function from the input tree to a new result
tree: the result is related to the input by the specification's substitution
relation (variables bound in the map are replaced by their images, all other
structure is preserved), and the empty substitution returns the input tree
unchanged.  The input pattern is an immutable value of the embedding, so the
original tree is by construction deeply equal to its pre-call snapshot after
the call; the same holds for `desugarAssociative`, which likewise maps its
input value to a new tree. -/
theorem substitute_pure (p : KOREPattern) (m : List (List Nat × KOREPattern)) :
    SubstRel m p (substitute p m) ∧ substitute p [] = p :=
  (substitute_main (encodePattern p).length).1 p (Nat.le_refl _) m

/-- C9: an argument count that differs from the constructor symbol's declared
arity fails with the arity error, both when constructing a composite pattern
through `add_argument` and when decoding one; consequently every successfully
built composite has argument count equal to its constructor's declared arity
(the `if` condition of the builder characterization), and every successfully
decoded pattern satisfies the arity invariant `WFP`. -/
theorem arity_enforced :
    (∀ (sym : KORESymbol) (args : List KOREPattern),
      buildComposite sym args =
        if args.length = sym.arguments.length then .ok (.composite sym args)
        else .error .arityError) ∧
    (∀ fuel l p r, decodePattern fuel l = .ok (p, r) → WFP p = true) :=
  ⟨buildComposite_spec, fun fuel => (decode_wf_main fuel).1⟩

/-- Witness for C9: a one-argument symbol rejects a zero-argument build with
the arity error, accepts a one-argument build, and a concrete successful
decode yields an arity-well-formed pattern. -/
theorem arity_enforced_witness :
    buildComposite ⟨[65], [KSort.sortVar [66]], [], none⟩ [] = .error .arityError ∧
    buildComposite ⟨[65], [KSort.sortVar [66]], [], none⟩ [.str []] =
      .ok (.composite ⟨[65], [KSort.sortVar [66]], [], none⟩ [.str []]) ∧
    WFP (.str [5]) = true := by
  refine ⟨?_, ?_, ?_⟩
  · have h := arity_enforced.1 ⟨[65], [KSort.sortVar [66]], [], none⟩ []
    simpa using h
  · have h := arity_enforced.1 ⟨[65], [KSort.sortVar [66]], [], none⟩ [.str []]
    simpa using h
  · refine arity_enforced.2 3 [1, 1, 5] (.str [5]) [] ?_
    rw [show (3 : Nat) = 2 + 1 from rfl]
    simp [decodePattern, show decodeStr [1, 5] = .ok ([5], []) from rfl]

/-! ## C3: read lengths are not validated

The read lambda at ast.cpp lines 79-81 converts whatever the file-like
object's `read(n)` returned, without comparing its length against `n`, and no
call site checks the returned length either: the magic comparison
(`std::equal` over the returned header only) accepts any prefix of the magic
constant, and a short body read is passed to the decoder as-is.  The
following closed theorem exhibits a concrete source on which the body
`read(10)` returns only 2 bytes and the operation nevertheless succeeds,
refuting the claim that every short read fails with a short-read error. -/

/-- Counterexample to C3 as stated: a concrete framed stream declares a body
size of 10 but ends after a 2-byte body.  The body read issued at cursor 19
returns only 2 of the 10 requested bytes, yet `read_from` silently accepts
the partial read and succeeds (no error of any kind, let alone a short-read
error), leaving the cursor at 21. -/
theorem short_read_counterexample :
    ((Source.read ⟨magicHeader ++ (versionBytes currentVersion ++
        (sizeBytes 10 ++ [1, 0])), 19⟩ 10).1).length = 2 ∧
    read_pattern_from_file true
        ⟨magicHeader ++ (versionBytes currentVersion ++ (sizeBytes 10 ++ [1, 0])), 0⟩ =
      (.ok (.str []), ⟨magicHeader ++ (versionBytes currentVersion ++
        (sizeBytes 10 ++ [1, 0])), 21⟩) := by
  constructor
  · rfl
  · have hdp : decodePattern 3 [1, 0] = .ok (.str [], []) := by
      rw [show (3 : Nat) = 2 + 1 from rfl]
      simp [decodePattern, show decodeStr [0] = .ok ([], []) from rfl]
    have hdt : decodeTop [1, 0] = .ok (.str []) := by
      simp [decodeTop, hdp]
    have hd0 : (magicHeader ++ (versionBytes currentVersion ++
        (sizeBytes 10 ++ [1, 0]))).drop 0 =
        magicHeader ++ (versionBytes currentVersion ++ (sizeBytes 10 ++ [1, 0])) :=
      List.drop_zero _
    have h5 := Source.read_chunk (n := 5) hd0 rfl
    have hd1 := Source.drop_after (n := 5) hd0 rfl
    have h6 := Source.read_chunk (n := 6) hd1 rfl
    have hd2 := Source.drop_after (n := 6) hd1 rfl
    have h8 := Source.read_chunk (n := 8) hd2 rfl
    have hd3 := Source.drop_after (n := 8) hd2 rfl
    have hbr : Source.read ⟨magicHeader ++ (versionBytes currentVersion ++
        (sizeBytes 10 ++ [1, 0])), 0 + 5 + 6 + 8⟩ 10 =
        ([1, 0], ⟨magicHeader ++ (versionBytes currentVersion ++
          (sizeBytes 10 ++ [1, 0])), 0 + 5 + 6 + 8 + 2⟩) := by
      simp [Source.read, hd3]
    have hpf : magicHeader.isPrefixOf magicHeader = true := by decide
    have hv : vlt (readVersion (versionBytes currentVersion)) ⟨1, 2, 0⟩ = false := by
      decide
    have hrs : readSize (sizeBytes 10) = 10 := rfl
    simp [read_pattern_from_file, h5, h6, h8, hbr, hpf, hv, hrs, hdt]

/-- C3 as amended: `read_from` performs no validation of the number of bytes
a `read(n)` call actually returned, so a short read is not reported as a
short-read error; in particular, for every well-formed pattern, a framed
stream that declares a body one byte longer than the body bytes actually
present is accepted silently — the short body read returns the complete
encoded pattern and `read_from` succeeds. -/
theorem short_read_partial_accepted (p : KOREPattern) (hw : WFP p = true)
    (hsz : (encodePattern p).length + 1 < 2 ^ 64) :
    read_pattern_from_file true
        ⟨magicHeader ++ versionBytes currentVersion ++
          sizeBytes ((encodePattern p).length + 1) ++ encodePattern p, 0⟩ =
      (.ok p, ⟨magicHeader ++ versionBytes currentVersion ++
        sizeBytes ((encodePattern p).length + 1) ++ encodePattern p,
        19 + (encodePattern p).length⟩) := by
  have hdt := decodeTop_encodePattern p hw
  simp only [List.append_assoc]
  have hd0 : (magicHeader ++ (versionBytes currentVersion ++
      (sizeBytes ((encodePattern p).length + 1) ++ encodePattern p))).drop 0 =
      magicHeader ++ (versionBytes currentVersion ++
        (sizeBytes ((encodePattern p).length + 1) ++ encodePattern p)) :=
    List.drop_zero _
  have h5 := Source.read_chunk (n := 5) hd0 rfl
  have hd1 := Source.drop_after (n := 5) hd0 rfl
  have h6 := Source.read_chunk (n := 6) hd1 rfl
  have hd2 := Source.drop_after (n := 6) hd1 rfl
  have h8 := Source.read_chunk (n := 8) hd2 rfl
  have hd3 := Source.drop_after (n := 8) hd2 rfl
  have hbr : Source.read ⟨magicHeader ++ (versionBytes currentVersion ++
      (sizeBytes ((encodePattern p).length + 1) ++ encodePattern p)), 0 + 5 + 6 + 8⟩
      ((encodePattern p).length + 1) =
      (encodePattern p, ⟨magicHeader ++ (versionBytes currentVersion ++
        (sizeBytes ((encodePattern p).length + 1) ++ encodePattern p)),
        0 + 5 + 6 + 8 + (encodePattern p).length⟩) := by
    simp [Source.read, hd3, List.take_of_length_le (Nat.le_succ _)]
  have hpf : magicHeader.isPrefixOf magicHeader = true := by decide
  have hv : vlt (readVersion (versionBytes currentVersion)) ⟨1, 2, 0⟩ = false := by
    decide
  simp only [read_pattern_from_file, h5, h6, h8, hbr, hpf, hv,
    readSize_sizeBytes _ hsz, hdt, Bool.not_true, Bool.false_eq_true, if_false,
    if_neg (by omega : ¬(encodePattern p).length + 1 = 0)]

/-- Witness for the amended C3 at a concrete pattern: the declared size 3
exceeds the 2 available body bytes, and the read still succeeds. -/
theorem short_read_partial_accepted_witness :
    read_pattern_from_file true
        ⟨magicHeader ++ versionBytes currentVersion ++
          sizeBytes ((encodePattern (.str [])).length + 1) ++ encodePattern (.str []), 0⟩ =
      (.ok (.str []), ⟨magicHeader ++ versionBytes currentVersion ++
        sizeBytes ((encodePattern (.str [])).length + 1) ++ encodePattern (.str []),
        19 + (encodePattern (.str [])).length⟩) :=
  short_read_partial_accepted (.str []) rfl (by decide)

/-- Witness for C4 at a concrete 5-byte source of zeros. -/
theorem bad_magic_format_error_witness :
    read_pattern_from_file true ⟨[0, 0, 0, 0, 0], 0⟩ =
      (.error .formatError, ⟨[0, 0, 0, 0, 0], 5⟩) :=
  bad_magic_format_error [0, 0, 0, 0, 0] (by decide) (by decide)

/-- Witness for C5: a version 1.1.0 stream is rejected with the
unsupported-version error, and a version 1.2.0 stream is not. -/
theorem version_gate_witness :
    read_pattern_from_file true ⟨magicHeader ++ [1, 0, 1, 0, 0, 0] ++ [], 0⟩ =
      (.error .unsupportedVersion, ⟨magicHeader ++ [1, 0, 1, 0, 0, 0] ++ [], 11⟩) ∧
    (read_pattern_from_file true ⟨magicHeader ++ [1, 0, 2, 0, 0, 0] ++ [], 0⟩).1 ≠
      .error .unsupportedVersion :=
  ⟨(version_gate [1, 0, 1, 0, 0, 0] [] rfl).1 (by decide),
    (version_gate [1, 0, 2, 0, 0, 0] [] rfl).2 (by decide)⟩

/-- Witness for C6 at a concrete version 1.2.0 stream with an all-zero size
field. -/
theorem zero_size_missing_size_error_witness :
    read_pattern_from_file true
        ⟨magicHeader ++ [1, 0, 2, 0, 0, 0] ++ [0, 0, 0, 0, 0, 0, 0, 0] ++ [], 0⟩ =
      (.error .missingSize,
        ⟨magicHeader ++ [1, 0, 2, 0, 0, 0] ++ [0, 0, 0, 0, 0, 0, 0, 0] ++ [], 19⟩) :=
  zero_size_missing_size_error [1, 0, 2, 0, 0, 0] [0, 0, 0, 0, 0, 0, 0, 0] []
    rfl rfl (by decide) rfl

end KLLVM
